import Mathlib

/-!
Verification of the whatsapp-service-standalone repository.

The source consists of `src/server.js` (an Express control plane holding a
`Map` of bot instances) and `src/whatsapp-bot-enhanced.js`, which contains two
variants of the `WhatsAppBot` class: a puppeteer/browser-automation variant
(polling loop, `checkForNewMessages`) and a whatsapp-web.js event-driven
variant (`handleMessage`, `handleQRCode`, ...).  Both are embedded below where
claims cite them.  Strings of the JavaScript program are modelled as
`List Char`; JavaScript `Set`s as `List`s with membership; the event-driven
control flow as explicit step functions over a state record.
-/

namespace WhatsAppService

/-! ### Link extractor (src/whatsapp-bot-enhanced.js, `extractLinks`, lines 613-616)

The source is `text.match(/(https?:\/\/[^\s]+)/g) || []`.  The regex engine
scans left to right; at each position it tries to match `https?:\/\/` followed
by one or more non-whitespace characters (greedy, so the match extends through
the whole following run of non-whitespace); after a match it resumes scanning
immediately after the matched text; a failed attempt advances one character. -/

/-- The JavaScript regex character class `\s` (ECMA-262 WhiteSpace plus
LineTerminator): TAB, LF, VT, FF, CR, SP, NBSP, LS, PS, the Unicode Zs
category and ZWNBSP. -/
def jsWhitespace (c : Char) : Bool :=
  let n := c.toNat
  n == 0x09 || n == 0x0A || n == 0x0B || n == 0x0C || n == 0x0D || n == 0x20 ||
  n == 0xA0 || n == 0x1680 || (0x2000 ≤ n && n ≤ 0x200A) ||
  n == 0x2028 || n == 0x2029 || n == 0x202F || n == 0x205F ||
  n == 0x3000 || n == 0xFEFF

/-- Negation of `jsWhitespace`, the regex class `[^\s]`. -/
def nonWs (c : Char) : Bool := !jsWhitespace c

/-- The characters of the literal alternative `http://` of the regex. -/
def httpSchemeChars : List Char := ['h', 't', 't', 'p', ':', '/', '/']

/-- The characters of the literal alternative `https://` of the regex. -/
def httpsSchemeChars : List Char := ['h', 't', 't', 'p', 's', ':', '/', '/']

/-- `startsWithChars pat l` holds when `pat` is an initial segment of `l`. -/
def startsWithChars : List Char → List Char → Bool
  | [], _ => true
  | _ :: _, [] => false
  | p :: ps, c :: cs => p == c && startsWithChars ps cs

/-- Embedding of `extractLinks(text)`: all matches of
`/(https?:\/\/[^\s]+)/g` in `text`, in scan order.  The greedy `s?` makes the
engine try `https://` before `http://` (the two cannot both match at one
position since they differ at index 4). -/
def extractLinks : List Char → List (List Char)
  | [] => []
  | c :: cs =>
    if startsWithChars httpsSchemeChars (c :: cs) then
      if ((cs.drop 7).takeWhile nonWs) = [] then extractLinks cs
      else (httpsSchemeChars ++ (cs.drop 7).takeWhile nonWs)
            :: extractLinks ((cs.drop 7).drop ((cs.drop 7).takeWhile nonWs).length)
    else if startsWithChars httpSchemeChars (c :: cs) then
      if ((cs.drop 6).takeWhile nonWs) = [] then extractLinks cs
      else (httpSchemeChars ++ (cs.drop 6).takeWhile nonWs)
            :: extractLinks ((cs.drop 6).drop ((cs.drop 6).takeWhile nonWs).length)
    else extractLinks cs
termination_by l => l.length
decreasing_by
  all_goals simp only [List.length_cons, List.length_drop]
  all_goals omega

/-- Fuel-indexed copy of `extractLinks`, structurally recursive so that it
evaluates by kernel reduction on concrete inputs. -/
def extractLinksFuel : Nat → List Char → List (List Char)
  | 0, _ => []
  | _ + 1, [] => []
  | fuel + 1, c :: cs =>
    if startsWithChars httpsSchemeChars (c :: cs) then
      if ((cs.drop 7).takeWhile nonWs) = [] then extractLinksFuel fuel cs
      else (httpsSchemeChars ++ (cs.drop 7).takeWhile nonWs)
            :: extractLinksFuel fuel ((cs.drop 7).drop ((cs.drop 7).takeWhile nonWs).length)
    else if startsWithChars httpSchemeChars (c :: cs) then
      if ((cs.drop 6).takeWhile nonWs) = [] then extractLinksFuel fuel cs
      else (httpSchemeChars ++ (cs.drop 6).takeWhile nonWs)
            :: extractLinksFuel fuel ((cs.drop 6).drop ((cs.drop 6).takeWhile nonWs).length)
    else extractLinksFuel fuel cs

theorem extractLinks_nil : extractLinks [] = [] := by
  rw [extractLinks.eq_def]

theorem extractLinks_cons (c : Char) (cs : List Char) :
    extractLinks (c :: cs) =
      if startsWithChars httpsSchemeChars (c :: cs) then
        if ((cs.drop 7).takeWhile nonWs) = [] then extractLinks cs
        else (httpsSchemeChars ++ (cs.drop 7).takeWhile nonWs)
              :: extractLinks ((cs.drop 7).drop ((cs.drop 7).takeWhile nonWs).length)
      else if startsWithChars httpSchemeChars (c :: cs) then
        if ((cs.drop 6).takeWhile nonWs) = [] then extractLinks cs
        else (httpSchemeChars ++ (cs.drop 6).takeWhile nonWs)
              :: extractLinks ((cs.drop 6).drop ((cs.drop 6).takeWhile nonWs).length)
      else extractLinks cs := by
  rw [extractLinks.eq_def]

theorem extractLinksFuel_eq : ∀ (fuel : Nat) (l : List Char), l.length ≤ fuel →
    extractLinksFuel fuel l = extractLinks l := by
  intro fuel
  induction fuel with
  | zero =>
    intro l hl
    have : l = [] := List.eq_nil_of_length_eq_zero (Nat.le_zero.mp hl)
    subst this
    rw [extractLinks_nil]
    rfl
  | succ n ih =>
    intro l hl
    match l with
    | [] => rw [extractLinks_nil]; rfl
    | c :: cs =>
      rw [extractLinks_cons]
      simp only [extractLinksFuel]
      simp only [List.length_cons, Nat.succ_le_succ_iff] at hl
      split_ifs with h8 hrun h7 hrun2
      · exact ih cs hl
      · rw [ih]
        simp only [List.length_drop]
        omega
      · exact ih cs hl
      · rw [ih]
        simp only [List.length_drop]
        omega
      · exact ih cs hl

/-- Evaluation form of `extractLinks` for concrete inputs. -/
theorem extractLinks_eval (l : List Char) :
    extractLinks l = extractLinksFuel l.length l :=
  (extractLinksFuel_eq l.length l (Nat.le_refl _)).symm

/-! ### The claimed matching rule, written from the spec sentence
"a URL is any maximal run of non-whitespace characters beginning with
`http://` or `https://`" -/

/-- Helper for `wsTokens`: walks the text keeping the (reversed) current run
of non-whitespace characters in the accumulator. -/
def wsTokensAux : List Char → List Char → List (List Char)
  | [], acc => if acc = [] then [] else [acc.reverse]
  | c :: cs, acc =>
    if jsWhitespace c then
      if acc = [] then wsTokensAux cs [] else acc.reverse :: wsTokensAux cs []
    else wsTokensAux cs (c :: acc)

/-- The maximal runs of non-whitespace characters of a text, in order. -/
def wsTokens (l : List Char) : List (List Char) := wsTokensAux l []

/-- Claimed link extraction: exactly the maximal runs of non-whitespace
characters that begin with `http://` or `https://`, in first-occurrence
order. -/
def claimedLinks (l : List Char) : List (List Char) :=
  (wsTokens l).filter
    (fun t => startsWithChars httpsSchemeChars t || startsWithChars httpSchemeChars t)

/-! ### The amended matching rule: leftmost occurrences of the scheme followed
by at least one non-whitespace character, extended through the whole following
run of non-whitespace, scanning resuming after each match. -/

/-- Splits off the scheme when the text begins with `https://` or `http://`,
returning the scheme characters and the remainder. -/
def schemeSplit (l : List Char) : Option (List Char × List Char) :=
  if startsWithChars httpsSchemeChars l then some (httpsSchemeChars, l.drop 8)
  else if startsWithChars httpSchemeChars l then some (httpSchemeChars, l.drop 7)
  else none

/-- True when the list starts with a non-whitespace character. -/
def nonWsHead : List Char → Bool
  | [] => false
  | d :: _ => nonWs d

/-- A URL match begins at the head of `l`: a scheme occurrence followed by at
least one non-whitespace character. -/
def matchableAt (l : List Char) : Bool :=
  match schemeSplit l with
  | some (_, rest) => nonWsHead rest
  | none => false

/-- Length of the URL match beginning at the head of `l`: the scheme plus the
maximal following run of non-whitespace. -/
def matchLenAt (l : List Char) : Nat :=
  match schemeSplit l with
  | some (pre, rest) => pre.length + (rest.takeWhile nonWs).length
  | none => 0

instance decidableMatchExists (l : List Char) :
    Decidable (∃ i, i < l.length ∧ matchableAt (l.drop i) = true) :=
  decidable_of_iff ((List.range l.length).any (fun i => matchableAt (l.drop i)) = true)
    (by simp only [List.any_eq_true, List.mem_range])

theorem schemeSplit_cases {l pre rest : List Char} (h : schemeSplit l = some (pre, rest)) :
    (startsWithChars httpsSchemeChars l = true ∧ pre = httpsSchemeChars ∧ rest = l.drop 8)
    ∨ (startsWithChars httpsSchemeChars l = false ∧ startsWithChars httpSchemeChars l = true
        ∧ pre = httpSchemeChars ∧ rest = l.drop 7) := by
  unfold schemeSplit at h
  by_cases h8 : startsWithChars httpsSchemeChars l
  · rw [if_pos h8] at h
    simp only [Option.some.injEq, Prod.mk.injEq] at h
    exact Or.inl ⟨h8, h.1.symm, h.2.symm⟩
  · rw [if_neg h8] at h
    by_cases h7 : startsWithChars httpSchemeChars l
    · rw [if_pos h7] at h
      simp only [Option.some.injEq, Prod.mk.injEq] at h
      exact Or.inr ⟨Bool.not_eq_true _ ▸ (by simpa using h8), h7, h.1.symm, h.2.symm⟩
    · rw [if_neg h7] at h
      cases h

theorem matchLenAt_pos (l : List Char) (h : matchableAt l = true) : 0 < matchLenAt l := by
  unfold matchableAt at h
  unfold matchLenAt
  cases hs : schemeSplit l with
  | none => rw [hs] at h; simp at h
  | some pr =>
    obtain ⟨pre, rest⟩ := pr
    have hlen : 0 < pre.length := by
      rcases schemeSplit_cases hs with ⟨_, hp, _⟩ | ⟨_, _, hp, _⟩ <;> subst hp <;> decide
    show 0 < pre.length + (rest.takeWhile nonWs).length
    omega

/-- The amended link-extraction rule, phrased by repeatedly locating the
leftmost position where a URL match begins (`Nat.find`), taking the match
there, and continuing after it. -/
def specLinks (l : List Char) : List (List Char) :=
  if h : ∃ i, i < l.length ∧ matchableAt (l.drop i) = true then
    (l.drop (Nat.find h)).take (matchLenAt (l.drop (Nat.find h)))
      :: specLinks (l.drop (Nat.find h + matchLenAt (l.drop (Nat.find h))))
  else []
termination_by l.length
decreasing_by
  have hs := Nat.find_spec h
  have hpos := matchLenAt_pos _ hs.2
  simp only [List.length_drop]
  omega

theorem startsWithChars_append : ∀ {pat l : List Char}, startsWithChars pat l = true →
    l = pat ++ l.drop pat.length := by
  intro pat
  induction pat with
  | nil => intro l _; simp
  | cons p ps ih =>
    intro l h
    cases l with
    | nil => simp [startsWithChars] at h
    | cons c cs =>
      simp only [startsWithChars, Bool.and_eq_true, beq_iff_eq] at h
      obtain ⟨hpc, hrest⟩ := h
      subst hpc
      simpa using ih hrest

theorem take_len_add : ∀ (a b : List Char) (k : Nat),
    (a ++ b).take (a.length + k) = a ++ b.take k := by
  intro a
  induction a with
  | nil => intro b k; simp
  | cons x xs ih =>
    intro b k
    simp only [List.cons_append, List.length_cons]
    have harith : xs.length + 1 + k = (xs.length + k) + 1 := by omega
    rw [harith, List.take_succ_cons, ih]

theorem drop_len_add : ∀ (a b : List Char) (k : Nat),
    (a ++ b).drop (a.length + k) = b.drop k := by
  intro a
  induction a with
  | nil => intro b k; simp
  | cons x xs ih =>
    intro b k
    simp only [List.cons_append, List.length_cons]
    have harith : xs.length + 1 + k = (xs.length + k) + 1 := by omega
    rw [harith, List.drop_succ_cons, ih]

theorem take_takeWhile_len (p : Char → Bool) :
    ∀ l : List Char, l.take (l.takeWhile p).length = l.takeWhile p := by
  intro l
  induction l with
  | nil => simp
  | cons c cs ih =>
    by_cases hc : p c
    · simp [List.takeWhile_cons, hc, ih]
    · simp [List.takeWhile_cons, hc]

theorem nonWsHead_iff (l : List Char) :
    nonWsHead l = true ↔ l.takeWhile nonWs ≠ [] := by
  cases l with
  | nil => simp [nonWsHead]
  | cons d ds =>
    by_cases hd : nonWs d <;> simp [nonWsHead, List.takeWhile_cons, hd]

theorem extract_match (l : List Char) (h : matchableAt l = true) :
    extractLinks l = l.take (matchLenAt l) :: extractLinks (l.drop (matchLenAt l)) := by
  cases l with
  | nil => exact absurd h (by decide)
  | cons c cs =>
    unfold matchableAt at h
    cases hs : schemeSplit (c :: cs) with
    | none => rw [hs] at h; simp at h
    | some pr =>
      obtain ⟨pre, rest⟩ := pr
      rw [hs] at h
      have hml : matchLenAt (c :: cs) = pre.length + (rest.takeWhile nonWs).length := by
        unfold matchLenAt; rw [hs]
      rcases schemeSplit_cases hs with ⟨h8, hpre, hrest⟩ | ⟨h8, h7, hpre, hrest⟩
      · subst hpre
        have hrest7 : rest = cs.drop 7 := hrest
        subst hrest7
        have hrun : (cs.drop 7).takeWhile nonWs ≠ [] := (nonWsHead_iff _).mp h
        rw [extractLinks_cons, if_pos h8, if_neg hrun, hml]
        have hl : (c :: cs) = httpsSchemeChars ++ cs.drop 7 := startsWithChars_append h8
        congr 1
        · conv_rhs => rw [hl]
          rw [take_len_add, take_takeWhile_len]
        · congr 1
          conv_rhs => rw [hl]
          rw [drop_len_add]
      · subst hpre
        have hrest6 : rest = cs.drop 6 := hrest
        subst hrest6
        have hn8 : ¬ (startsWithChars httpsSchemeChars (c :: cs) = true) := by simp [h8]
        have hrun : (cs.drop 6).takeWhile nonWs ≠ [] := (nonWsHead_iff _).mp h
        rw [extractLinks_cons, if_neg hn8, if_pos h7, if_neg hrun, hml]
        have hl : (c :: cs) = httpSchemeChars ++ cs.drop 6 := startsWithChars_append h7
        congr 1
        · conv_rhs => rw [hl]
          rw [take_len_add, take_takeWhile_len]
        · congr 1
          conv_rhs => rw [hl]
          rw [drop_len_add]

theorem extract_nomatch (c : Char) (cs : List Char) (h : matchableAt (c :: cs) = false) :
    extractLinks (c :: cs) = extractLinks cs := by
  rw [extractLinks_cons]
  unfold matchableAt at h
  by_cases h8 : startsWithChars httpsSchemeChars (c :: cs)
  · rw [if_pos h8]
    have hsch : schemeSplit (c :: cs) = some (httpsSchemeChars, cs.drop 7) := by
      unfold schemeSplit; rw [if_pos h8]; rfl
    rw [hsch] at h
    have hempty : (cs.drop 7).takeWhile nonWs = [] := by
      by_contra hne
      have htrue := (nonWsHead_iff (cs.drop 7)).mpr hne
      simp [htrue] at h
    rw [if_pos hempty]
  · rw [if_neg h8]
    by_cases h7 : startsWithChars httpSchemeChars (c :: cs)
    · rw [if_pos h7]
      have hsch : schemeSplit (c :: cs) = some (httpSchemeChars, cs.drop 6) := by
        unfold schemeSplit; rw [if_neg h8, if_pos h7]; rfl
      rw [hsch] at h
      have hempty : (cs.drop 6).takeWhile nonWs = [] := by
        by_contra hne
        have htrue := (nonWsHead_iff (cs.drop 6)).mpr hne
        simp [htrue] at h
      rw [if_pos hempty]
    · rw [if_neg h7]

theorem spec_empty (l : List Char)
    (h : ¬ ∃ i, i < l.length ∧ matchableAt (l.drop i) = true) : specLinks l = [] := by
  rw [specLinks.eq_def, dif_neg h]

theorem spec_match (l : List Char) (hm : matchableAt l = true) (hl : 0 < l.length) :
    specLinks l = l.take (matchLenAt l) :: specLinks (l.drop (matchLenAt l)) := by
  have hE : ∃ i, i < l.length ∧ matchableAt (l.drop i) = true := ⟨0, hl, by simpa using hm⟩
  rw [specLinks.eq_def, dif_pos hE]
  have h0 : Nat.find hE = 0 := (Nat.find_eq_zero hE).mpr ⟨hl, by simpa using hm⟩
  rw [h0]
  simp

theorem spec_shift (c : Char) (cs : List Char) (h : matchableAt (c :: cs) = false) :
    specLinks (c :: cs) = specLinks cs := by
  by_cases hE : ∃ i, i < (c :: cs).length ∧ matchableAt ((c :: cs).drop i) = true
  · have hfind := Nat.find_spec hE
    obtain ⟨j, hj⟩ : ∃ j, Nat.find hE = j + 1 := by
      refine ⟨Nat.find hE - 1, ?_⟩
      have hne : Nat.find hE ≠ 0 := by
        intro h0
        have hmt := hfind.2
        rw [h0] at hmt
        simp only [List.drop_zero] at hmt
        rw [h] at hmt
        cases hmt
      omega
    have hE' : ∃ i, i < cs.length ∧ matchableAt (cs.drop i) = true := by
      refine ⟨j, ?_, ?_⟩
      · have hlt := hfind.1
        rw [hj] at hlt
        simp only [List.length_cons] at hlt
        omega
      · have hmt := hfind.2
        rw [hj] at hmt
        simpa [List.drop_succ_cons] using hmt
    have hfind' : Nat.find hE' = j := by
      rw [Nat.find_eq_iff]
      refine ⟨⟨?_, ?_⟩, ?_⟩
      · have hlt := hfind.1
        rw [hj] at hlt
        simp only [List.length_cons] at hlt
        omega
      · have hmt := hfind.2
        rw [hj] at hmt
        simpa [List.drop_succ_cons] using hmt
      · intro m hm hPm
        have hlt : m + 1 < Nat.find hE := by omega
        exact Nat.find_min hE hlt
          ⟨by simp only [List.length_cons]; omega,
           by simpa [List.drop_succ_cons] using hPm.2⟩
    rw [specLinks.eq_def, dif_pos hE]
    conv_rhs => rw [specLinks.eq_def]
    rw [dif_pos hE', hfind', hj]
    have e1 : (c :: cs).drop (j + 1) = cs.drop j := List.drop_succ_cons ..
    rw [e1]
    have e2 : (c :: cs).drop (j + 1 + matchLenAt (cs.drop j))
        = cs.drop (j + matchLenAt (cs.drop j)) := by
      have harith : j + 1 + matchLenAt (cs.drop j) = (j + matchLenAt (cs.drop j)) + 1 := by
        omega
      rw [harith, List.drop_succ_cons]
    rw [e2]
  · have hE' : ¬ ∃ i, i < cs.length ∧ matchableAt (cs.drop i) = true := by
      rintro ⟨j, hj1, hj2⟩
      exact hE ⟨j + 1, by simp only [List.length_cons]; omega,
        by simpa [List.drop_succ_cons] using hj2⟩
    rw [spec_empty _ hE, spec_empty _ hE']

theorem extractLinks_eq_specLinks_aux : ∀ (n : Nat) (l : List Char), l.length ≤ n →
    extractLinks l = specLinks l := by
  intro n
  induction n with
  | zero =>
    intro l hl
    have hnil : l = [] := List.eq_nil_of_length_eq_zero (Nat.le_zero.mp hl)
    subst hnil
    have h0 : ¬ ∃ i, i < ([] : List Char).length ∧ matchableAt (List.drop i []) = true := by
      rintro ⟨i, hi, _⟩
      simp at hi
    rw [extractLinks_nil, spec_empty _ h0]
  | succ n ih =>
    intro l hl
    match l with
    | [] =>
      have h0 : ¬ ∃ i, i < ([] : List Char).length ∧ matchableAt (List.drop i []) = true := by
        rintro ⟨i, hi, _⟩
        simp at hi
      rw [extractLinks_nil, spec_empty _ h0]
    | c :: cs =>
      simp only [List.length_cons] at hl
      by_cases hm : matchableAt (c :: cs) = true
      · rw [extract_match _ hm, spec_match _ hm (by simp)]
        congr 1
        apply ih
        have hpos := matchLenAt_pos _ hm
        simp only [List.length_drop, List.length_cons]
        omega
      · have hm' : matchableAt (c :: cs) = false := by
          cases hb : matchableAt (c :: cs)
          · rfl
          · exact absurd hb hm
        rw [extract_nomatch _ _ hm', spec_shift _ _ hm']
        apply ih
        omega

/-! ### Session state machine

The whatsapp-web.js variant of `WhatsAppBot` (second half of
src/whatsapp-bot-enhanced.js).  One record holds the mutable fields of the
class; the event handlers installed by `setupEventHandlers` plus the
`initialize`/`disconnect` methods become step functions.  Statuses are the
string constants assigned to `this.status` in the source. -/

inductive Status
  | disconnected
  | initializing
  | connecting
  | qr_ready
  | connected
  | auth_failed
  | error
deriving DecidableEq, Repr

/-- Mutable fields of the event-driven `WhatsAppBot`: `this.status`,
`this.connected`, `this.qrCode` (raw challenge string), `this.qrCodeDataURL`
(encoded challenge) and `this.processedMessages` (a `Set`, modelled as a
list with membership). -/
structure Bot where
  status : Status
  connected : Bool
  qrCode : Option (List Char)
  qrCodeDataURL : Option (List Char)
  seen : List String
deriving DecidableEq, Repr

/-- The freshly constructed bot: `connected = false`, `status =
'disconnected'`, both QR fields null, empty dedup set. -/
def botInit : Bot :=
  { status := .disconnected, connected := false, qrCode := none,
    qrCodeDataURL := none, seen := [] }

/-- Modelled from the spec: the QR Challenge Handler synchronously derives a
transportable encoding of the raw challenge (the external `qrcode` library's
`toDataURL`, opaque to this repository).  Only that the result is a present,
derived payload matters to any claim. -/
def qrToDataURL (q : List Char) : List Char :=
  'd' :: 'a' :: 't' :: 'a' :: ':' :: q

/-- An inbound message as consumed by `handleMessage`: `message.from`,
`message.id.id`, `message.body`, whether `message.getContact()` succeeds, and
the resolved sender name (`pushname || name || number || 'Unknown'`). -/
structure Msg2 where
  fromChat : String
  msgId : String
  body : List Char
  contactOk : Bool
  senderName : String
deriving DecidableEq, Repr

/-- One call of `dispatchLink` made by the intake pipeline, with the message
id it originated from as provenance. -/
structure LinkDispatch where
  msgId : String
  link : List Char
  sender : String
deriving DecidableEq, Repr

/-- Result of one intake step: the updated bot state, the `dispatchLink`
calls made, the ids whose bodies were (re-)run through link extraction, and
the exception propagated to the caller (always `none`: every handler wraps
its body in try/catch). -/
structure StepOut where
  state : Bot
  dispatches : List LinkDispatch
  extracted : List String
  thrown : Option String
deriving DecidableEq, Repr

/-- Embedding of `handleMessage(message)` (event-driven variant, lines
563-595): skip `status@broadcast`; skip ids already in `processedMessages`,
otherwise insert the id; run `extractLinks` on the body; when links were
found, resolve the contact (a failure there is caught by the surrounding
try/catch, after the id was already inserted) and call `dispatchLink` once
per link. -/
def handleMessage (s : Bot) (m : Msg2) : StepOut :=
  if m.fromChat = "status@broadcast" then ⟨s, [], [], none⟩
  else if m.msgId ∈ s.seen then ⟨s, [], [], none⟩
  else
    let s' := { s with seen := m.msgId :: s.seen }
    let links := extractLinks m.body
    if links = [] then ⟨s', [], [m.msgId], none⟩
    else if m.contactOk then
      ⟨s', links.map (fun l => ⟨m.msgId, l, m.senderName⟩), [m.msgId], none⟩
    else ⟨s', [], [m.msgId], none⟩

/-- A message element as seen by the polling variant's
`checkForNewMessages`: the `data-id` attribute (absent ids are skipped),
whether the id evaluation succeeded, the `$$eval` link extraction result and
whether that evaluation succeeded, and the best-effort sender name. -/
structure DomMsg where
  attrId : Option String
  idEvalOk : Bool
  domLinks : List (List Char)
  linksEvalOk : Bool
  senderName : String
deriving DecidableEq, Repr

/-- One iteration of the `for` loop of `checkForNewMessages`
(browser-automation variant, lines 232-273): evaluate the id (a failure is
caught per message and skips it); skip absent or already-processed ids; run
the DOM link extraction (a failure there is caught per message and skips the
insert); dispatch each link; insert the id after the dispatch loop. -/
def checkOneMessage (s : Bot) (m : DomMsg) : StepOut :=
  if ¬ m.idEvalOk then ⟨s, [], [], none⟩
  else
    match m.attrId with
    | none => ⟨s, [], [], none⟩
    | some id =>
      if id ∈ s.seen then ⟨s, [], [], none⟩
      else if ¬ m.linksEvalOk then ⟨s, [], [id], none⟩
      else if m.domLinks = [] then ⟨{ s with seen := id :: s.seen }, [], [id], none⟩
      else ⟨{ s with seen := id :: s.seen },
            m.domLinks.map (fun l => ⟨id, l, m.senderName⟩), [id], none⟩

/-- Embedding of `checkForNewMessages()`: the loop over all currently
rendered message elements. -/
def checkForNewMessages (s : Bot) : List DomMsg → StepOut
  | [] => ⟨s, [], [], none⟩
  | m :: ms =>
    let r := checkOneMessage s m
    let rest := checkForNewMessages r.state ms
    ⟨rest.state, r.dispatches ++ rest.dispatches, r.extracted ++ rest.extracted, none⟩

/-- The lifecycle events delivered to the event-driven bot: rejection of
`client.initialize()`; the `qr` event (with whether `qrcode.toDataURL`
succeeds — on failure the catch in `handleQRCode` leaves status and the
encoded challenge untouched, the raw challenge having been stored already);
`ready`; `disconnected`; `auth_failure`; and a `disconnect()` call from the
control plane (with whether `client.destroy()` succeeds — on failure the
catch skips the field resets). -/
inductive ClientEvent
  | initFail
  | qr (q : List Char) (encodeOk : Bool)
  | ready
  | disconnectedEvt
  | authFailure
  | disconnectCall (destroyOk : Bool)
deriving DecidableEq, Repr

/-- Embedding of `disconnect()` (event-driven variant, lines 774-792):
`client.destroy()` then reset `connected`, `status`, `qrCode`,
`qrCodeDataURL`; any error is caught and logged, so nothing is thrown to the
caller. -/
def disconnect (s : Bot) (destroyOk : Bool) : Bot × Option String :=
  (if destroyOk then
    { s with status := .disconnected, connected := false,
             qrCode := none, qrCodeDataURL := none }
  else s, none)

/-- The state change performed by each lifecycle handler of
`setupEventHandlers` (lines 465-495) together with `handleQRCode`,
`handleReady`, `handleDisconnected` (lines 517-611) and the catch branch of
`initialize` (lines 509-514). -/
def handleClientEvent (s : Bot) : ClientEvent → Bot
  | .initFail => { s with status := .error }
  | .qr q ok =>
    if ok then
      { s with qrCode := some q, qrCodeDataURL := some (qrToDataURL q),
               status := .qr_ready }
    else { s with qrCode := some q }
  | .ready =>
    { s with status := .connected, connected := true,
             qrCode := none, qrCodeDataURL := none }
  | .disconnectedEvt =>
    { s with status := .disconnected, connected := false,
             qrCode := none, qrCodeDataURL := none }
  | .authFailure => { s with status := .auth_failed }
  | .disconnectCall ok => (disconnect s ok).1

/-- Anything that can happen to a session after `initialize()` has set
`status = 'initializing'`: a lifecycle event, an inbound `message` event, or
one round of the periodic poll. -/
inductive BotEvent
  | client (e : ClientEvent)
  | message (m : Msg2)
  | poll (ms : List DomMsg)
deriving DecidableEq, Repr

/-- One event against the session. -/
def botStep (s : Bot) : BotEvent → StepOut
  | .client e => ⟨handleClientEvent s e, [], [], none⟩
  | .message m => handleMessage s m
  | .poll ms => checkForNewMessages s ms

/-- A whole event history against the session, accumulating the dispatch
calls and the extraction runs. -/
def runBot (s : Bot) : List BotEvent → StepOut
  | [] => ⟨s, [], [], none⟩
  | e :: evs =>
    let r := botStep s e
    let rest := runBot r.state evs
    ⟨rest.state, r.dispatches ++ rest.dispatches, r.extracted ++ rest.extracted, none⟩

/-- The session state reached by an event history from a freshly started
session (`initialize` has set `status = 'initializing'`). -/
def reachState (evs : List BotEvent) : Bot :=
  (runBot { botInit with status := .initializing } evs).state

/-! ### C2 -/

/-- C2 counterexample: on `"xhttp://a"` the code's extractor matches the
scheme mid-token and returns `["http://a"]`, while the claimed rule — the
maximal whitespace-delimited runs beginning with `http://` or `https://` —
yields the empty sequence, since the only such run is `"xhttp://a"`. -/
theorem c2_counterexample :
    extractLinks "xhttp://a".data = ["http://a".data]
    ∧ claimedLinks "xhttp://a".data = []
    ∧ extractLinks "xhttp://a".data ≠ claimedLinks "xhttp://a".data := by
  refine ⟨?_, by decide, ?_⟩
  · rw [extractLinks_eval]
    decide
  · rw [extractLinks_eval]
    decide

/-- C2 (amended): for every message text the Link Extractor returns exactly
the matches found by scanning left to right for an occurrence of `http://`
or `https://` followed by at least one non-whitespace character, each match
extended through the whole following run of non-whitespace and scanning
resuming after it — matches may begin inside a larger non-whitespace run, a
bare scheme with nothing after `//` is not matched, first-occurrence order
is kept, duplicates are retained, no normalization is applied, and a text
with no such occurrence yields the empty sequence.  Stated as: the embedded
`extractLinks` coincides with `specLinks`, the leftmost-repeated-match rule
written with `Nat.find`. -/
theorem c2_extractor_amended (l : List Char) : extractLinks l = specLinks l :=
  extractLinks_eq_specLinks_aux l.length l (Nat.le_refl _)

/-! ### C1: deduplication of message ids -/

theorem filter_map_ne (mId sn id : String) (hne : mId ≠ id) (links : List (List Char)) :
    (links.map (fun l => (⟨mId, l, sn⟩ : LinkDispatch))).filter
      (fun d => d.msgId == id) = [] := by
  induction links with
  | nil => rfl
  | cons l ls ih =>
    simp only [List.map_cons, List.filter_cons]
    have hb : (mId == id) = false := beq_eq_false_iff_ne.mpr hne
    simp [hb, ih]

theorem handleMessage_c1 (s : Bot) (m : Msg2) (id : String) (h : id ∈ s.seen) :
    id ∈ (handleMessage s m).state.seen
    ∧ id ∉ (handleMessage s m).extracted
    ∧ (handleMessage s m).dispatches.filter (fun d => d.msgId == id) = [] := by
  unfold handleMessage
  by_cases h1 : m.fromChat = "status@broadcast"
  · simp [h1, h]
  · by_cases h2 : m.msgId ∈ s.seen
    · simp [h1, h2, h]
    · have hne : m.msgId ≠ id := fun he => h2 (he ▸ h)
      by_cases h3 : extractLinks m.body = []
      · simp [h1, h2, h3, h, hne, Ne.symm hne]
      · by_cases h4 : m.contactOk
        · simp [h1, h2, h3, h4, h, hne, Ne.symm hne,
            filter_map_ne m.msgId m.senderName id hne]
        · simp [h1, h2, h3, h4, h, hne, Ne.symm hne]

theorem checkOneMessage_c1 (s : Bot) (m : DomMsg) (id : String) (h : id ∈ s.seen) :
    id ∈ (checkOneMessage s m).state.seen
    ∧ id ∉ (checkOneMessage s m).extracted
    ∧ (checkOneMessage s m).dispatches.filter (fun d => d.msgId == id) = [] := by
  unfold checkOneMessage
  by_cases h1 : m.idEvalOk
  · cases hattr : m.attrId with
    | none => simp [h1, h]
    | some mid =>
      by_cases h2 : mid ∈ s.seen
      · simp [h1, h2, h]
      · have hne : mid ≠ id := fun he => h2 (he ▸ h)
        by_cases h3 : m.linksEvalOk
        · by_cases h4 : m.domLinks = []
          · simp [h1, h2, h3, h4, h, hne, Ne.symm hne]
          · simp [h1, h2, h3, h4, h, hne, Ne.symm hne,
              filter_map_ne mid m.senderName id hne]
        · simp [h1, h2, h3, h, hne, Ne.symm hne]
  · simp [h1, h]

theorem checkForNewMessages_c1 : ∀ (ms : List DomMsg) (s : Bot) (id : String),
    id ∈ s.seen →
    id ∈ (checkForNewMessages s ms).state.seen
    ∧ id ∉ (checkForNewMessages s ms).extracted
    ∧ (checkForNewMessages s ms).dispatches.filter (fun d => d.msgId == id) = [] := by
  intro ms
  induction ms with
  | nil => intro s id h; simpa [checkForNewMessages] using h
  | cons m ms ih =>
    intro s id h
    have h1 := checkOneMessage_c1 s m id h
    have h2 := ih (checkOneMessage s m).state id h1.1
    simp only [checkForNewMessages, List.filter_append, List.mem_append]
    refine ⟨h2.1, ?_, ?_⟩
    · intro hmem
      rcases hmem with hm | hm
      · exact h1.2.1 hm
      · exact h2.2.1 hm
    · rw [h1.2.2, h2.2.2]
      rfl

theorem botStep_c1 (s : Bot) (e : BotEvent) (id : String) (h : id ∈ s.seen) :
    id ∈ (botStep s e).state.seen
    ∧ id ∉ (botStep s e).extracted
    ∧ (botStep s e).dispatches.filter (fun d => d.msgId == id) = [] := by
  cases e with
  | client ce =>
    refine ⟨?_, by simp [botStep], by simp [botStep]⟩
    cases ce with
    | qr q ok => by_cases hok : ok <;> simp [botStep, handleClientEvent, hok, h]
    | disconnectCall ok =>
      by_cases hok : ok <;> simp [botStep, handleClientEvent, disconnect, hok, h]
    | _ => simp [botStep, handleClientEvent, h]
  | message m => exact handleMessage_c1 s m id h
  | poll ms => exact checkForNewMessages_c1 ms s id h

theorem runBot_c1 : ∀ (evs : List BotEvent) (s : Bot) (id : String), id ∈ s.seen →
    id ∈ (runBot s evs).state.seen
    ∧ id ∉ (runBot s evs).extracted
    ∧ (runBot s evs).dispatches.filter (fun d => d.msgId == id) = [] := by
  intro evs
  induction evs with
  | nil => intro s id h; simpa [runBot] using h
  | cons e evs ih =>
    intro s id h
    have h1 := botStep_c1 s e id h
    have h2 := ih (botStep s e).state id h1.1
    simp only [runBot, List.filter_append, List.mem_append]
    refine ⟨h2.1, ?_, ?_⟩
    · intro hmem
      rcases hmem with hm | hm
      · exact h1.2.1 hm
      · exact h2.2.1 hm
    · rw [h1.2.2, h2.2.2]
      rfl

/-- C1: a message id already in `seenMessageIds` is never link-extracted or
dispatched again for the life of the session: over any later event history
(event-callback deliveries, polls, lifecycle events, `disconnect` — nothing
ever removes from the set) the id is never run through link extraction and
no dispatch call carries it; and a single repeat delivery through the event
callback is an exact no-op. -/
theorem c1_seen_id_never_reprocessed (s : Bot) (evs : List BotEvent) (id : String)
    (h : id ∈ s.seen) :
    id ∉ (runBot s evs).extracted
    ∧ (runBot s evs).dispatches.filter (fun d => d.msgId == id) = []
    ∧ (∀ m : Msg2, m.msgId = id → handleMessage s m = ⟨s, [], [], none⟩) := by
  have hr := runBot_c1 evs s id h
  refine ⟨hr.2.1, hr.2.2, ?_⟩
  intro m hm
  unfold handleMessage
  by_cases h1 : m.fromChat = "status@broadcast"
  · simp [h1]
  · have h2 : m.msgId ∈ s.seen := hm ▸ h
    simp [h1, h2]

/-- C1 witness data: a session that has already processed id `m1`. -/
def c1WitnessBot : Bot := { botInit with seen := ["m1"] }

/-- C1 witness data: a repeat delivery of `m1` through the event callback
and through one poll round. -/
def c1WitnessEvs : List BotEvent :=
  [ .message ⟨"chat1", "m1", "http://x.example".data, true, "Bob"⟩,
    .poll [⟨some "m1", true, ["http://y.example".data], true, "Ann"⟩] ]

theorem c1_witness :
    "m1" ∈ c1WitnessBot.seen
    ∧ ("m1" ∉ (runBot c1WitnessBot c1WitnessEvs).extracted
       ∧ (runBot c1WitnessBot c1WitnessEvs).dispatches.filter
           (fun d => d.msgId == "m1") = []
       ∧ (∀ m : Msg2, m.msgId = "m1" →
           handleMessage c1WitnessBot m = ⟨c1WitnessBot, [], [], none⟩)) :=
  ⟨by decide, c1_seen_id_never_reprocessed c1WitnessBot c1WitnessEvs "m1" (by decide)⟩

/-! ### Intake steps never touch status, connectivity or the challenge -/

theorem handleMessage_preserves (s : Bot) (m : Msg2) :
    (handleMessage s m).state.status = s.status
    ∧ (handleMessage s m).state.connected = s.connected
    ∧ (handleMessage s m).state.qrCode = s.qrCode
    ∧ (handleMessage s m).state.qrCodeDataURL = s.qrCodeDataURL
    ∧ (handleMessage s m).thrown = none := by
  unfold handleMessage
  by_cases h1 : m.fromChat = "status@broadcast"
  · simp [h1]
  · by_cases h2 : m.msgId ∈ s.seen
    · simp [h1, h2]
    · by_cases h3 : extractLinks m.body = []
      · simp [h1, h2, h3]
      · by_cases h4 : m.contactOk
        · simp [h1, h2, h3, h4]
        · simp [h1, h2, h3, h4]

theorem checkOneMessage_preserves (s : Bot) (m : DomMsg) :
    (checkOneMessage s m).state.status = s.status
    ∧ (checkOneMessage s m).state.connected = s.connected
    ∧ (checkOneMessage s m).state.qrCode = s.qrCode
    ∧ (checkOneMessage s m).state.qrCodeDataURL = s.qrCodeDataURL
    ∧ (checkOneMessage s m).thrown = none := by
  unfold checkOneMessage
  by_cases h1 : m.idEvalOk
  · cases hattr : m.attrId with
    | none => simp [h1]
    | some mid =>
      by_cases h2 : mid ∈ s.seen
      · simp [h1, h2]
      · by_cases h3 : m.linksEvalOk
        · by_cases h4 : m.domLinks = []
          · simp [h1, h2, h3, h4]
          · simp [h1, h2, h3, h4]
        · simp [h1, h2, h3]
  · simp [h1]

theorem checkForNewMessages_preserves : ∀ (ms : List DomMsg) (s : Bot),
    (checkForNewMessages s ms).state.status = s.status
    ∧ (checkForNewMessages s ms).state.connected = s.connected
    ∧ (checkForNewMessages s ms).state.qrCode = s.qrCode
    ∧ (checkForNewMessages s ms).state.qrCodeDataURL = s.qrCodeDataURL
    ∧ (checkForNewMessages s ms).thrown = none := by
  intro ms
  induction ms with
  | nil => intro s; simp [checkForNewMessages]
  | cons m ms ih =>
    intro s
    have h1 := checkOneMessage_preserves s m
    have h2 := ih (checkOneMessage s m).state
    simp only [checkForNewMessages]
    exact ⟨h2.1.trans h1.1, h2.2.1.trans h1.2.1, h2.2.2.1.trans h1.2.2.1,
      h2.2.2.2.1.trans h1.2.2.2.1, trivial⟩

/-! ### C3: where the stored challenge can be non-null -/

/-- The invariant that actually holds for the stored encoded challenge: it
is present only in the `qr_ready`, `auth_failed` and `error` statuses (the
`auth_failure` handler and the `initialize` catch branch do not clear it). -/
def challengeInv (s : Bot) : Prop :=
  s.qrCodeDataURL.isSome = true →
    s.status = .qr_ready ∨ s.status = .auth_failed ∨ s.status = .error

theorem botStep_challengeInv (s : Bot) (e : BotEvent) (h : challengeInv s) :
    challengeInv (botStep s e).state := by
  cases e with
  | client ce =>
    cases ce with
    | initFail => intro _; simp [botStep, handleClientEvent]
    | qr q ok =>
      by_cases hok : ok
      · intro _; simp [botStep, handleClientEvent, hok]
      · intro hq
        simp only [botStep, handleClientEvent, hok, if_false, Bool.false_eq_true] at hq ⊢
        exact h hq
    | ready => intro hq; simp [botStep, handleClientEvent] at hq
    | disconnectedEvt => intro hq; simp [botStep, handleClientEvent] at hq
    | authFailure => intro _; simp [botStep, handleClientEvent]
    | disconnectCall ok =>
      by_cases hok : ok
      · intro hq; simp [botStep, handleClientEvent, disconnect, hok] at hq
      · intro hq
        simp only [botStep, handleClientEvent, disconnect, hok, if_false,
          Bool.false_eq_true] at hq ⊢
        exact h hq
  | message m =>
    intro hq
    have hp := handleMessage_preserves s m
    rw [botStep] at hq ⊢
    rw [hp.2.2.2.1] at hq
    rw [hp.1]
    exact h hq
  | poll ms =>
    intro hq
    have hp := checkForNewMessages_preserves ms s
    rw [botStep] at hq ⊢
    rw [hp.2.2.2.1] at hq
    rw [hp.1]
    exact h hq

theorem runBot_challengeInv : ∀ (evs : List BotEvent) (s : Bot), challengeInv s →
    challengeInv (runBot s evs).state := by
  intro evs
  induction evs with
  | nil => intro s h; simpa [runBot] using h
  | cons e evs ih =>
    intro s h
    exact ih (botStep s e).state (botStep_challengeInv s e h)

/-- C3 counterexample: after the history qr-event then auth-failure — both
deliverable by the platform client — the session reached from the initial
state still stores the encoded challenge while its status is `auth_failed`,
not `qr_ready`; so the challenge is not non-null only while `qr_ready`. -/
theorem c3_counterexample :
    (reachState [.client (.qr ['q'] true), .client .authFailure]).qrCodeDataURL.isSome = true
    ∧ (reachState [.client (.qr ['q'] true), .client .authFailure]).status = .auth_failed
    ∧ (reachState [.client (.qr ['q'] true), .client .authFailure]).status ≠ .qr_ready := by
  refine ⟨by decide, by decide, by decide⟩

/-- C3 (amended): in every session state reachable from the initial state,
the stored encoded challenge (`qrCodeDataURL`) is non-null only while the
status is `qr_ready`, `auth_failed` or `error` — an authentication failure
or an initialization failure leaves the stored challenge in place — and in
every reachable state with status `connected` or `disconnected` the
challenge is null (the transitions to those statuses clear it). -/
theorem c3_amended_challenge_only_qr_authfail_error (evs : List BotEvent) :
    ((reachState evs).qrCodeDataURL.isSome = true →
      (reachState evs).status = .qr_ready ∨ (reachState evs).status = .auth_failed
        ∨ (reachState evs).status = .error)
    ∧ (((reachState evs).status = .connected ∨ (reachState evs).status = .disconnected) →
      (reachState evs).qrCodeDataURL = none) := by
  have hinv : challengeInv (reachState evs) := by
    apply runBot_challengeInv
    intro hq
    simp [botInit] at hq
  refine ⟨hinv, ?_⟩
  intro hst
  cases hq : (reachState evs).qrCodeDataURL with
  | none => rfl
  | some v =>
    have hmem := hinv (by rw [hq]; rfl)
    rcases hst with h1 | h1 <;> rcases hmem with h2 | h2 | h2 <;>
      rw [h1] at h2 <;> cases h2

theorem c3_witness :
    (reachState [.client (.qr ['q'] true)]).qrCodeDataURL.isSome = true
    ∧ ((reachState [.client (.qr ['q'] true)]).status = .qr_ready
        ∨ (reachState [.client (.qr ['q'] true)]).status = .auth_failed
        ∨ (reachState [.client (.qr ['q'] true)]).status = .error) :=
  ⟨by decide, (c3_amended_challenge_only_qr_authfail_error _).1 (by decide)⟩

/-! ### Webhook dispatcher -/

/-- The two configurable destinations of the dispatcher. -/
inductive Dest
  | webhook
  | callback
deriving DecidableEq, Repr

/-- One outbound HTTP POST attempt: destination and the axios timeout (ms)
passed for it. -/
structure Attempt where
  dest : Dest
  timeoutMs : Nat
deriving DecidableEq, Repr

/-- Embedding of `dispatchLink` (event-driven variant, lines 618-681): one
try block that first awaits a POST to `webhookUrl` (timeout 10000) when
configured, then awaits a POST to `callbackUrl` (timeout 5000) when
configured; a failure of either POST jumps to the catch, which only logs —
so the callback POST is skipped when the webhook POST failed, and nothing is
thrown to the caller.  Returns the POSTs attempted, in order, and the
exception propagated to the caller. -/
def dispatchLink (webhookUrl callbackUrl : Option String)
    (webhookFails callbackFails : Bool) : List Attempt × Option String :=
  match webhookUrl with
  | some _ =>
    if webhookFails then ([⟨.webhook, 10000⟩], none)
    else
      match callbackUrl with
      | some _ => ([⟨.webhook, 10000⟩, ⟨.callback, 5000⟩], none)
      | none => ([⟨.webhook, 10000⟩], none)
  | none =>
    match callbackUrl with
    | some _ => ([⟨.callback, 5000⟩], none)
    | none => ([], none)

/-- Embedding of the browser variant's `dispatchLink` (lines 275-320): same
control flow, both timeouts 10000. -/
def dispatchLinkBrowser (webhookUrl callbackUrl : Option String)
    (webhookFails callbackFails : Bool) : List Attempt × Option String :=
  match webhookUrl with
  | some _ =>
    if webhookFails then ([⟨.webhook, 10000⟩], none)
    else
      match callbackUrl with
      | some _ => ([⟨.webhook, 10000⟩, ⟨.callback, 10000⟩], none)
      | none => ([⟨.webhook, 10000⟩], none)
  | none =>
    match callbackUrl with
    | some _ => ([⟨.callback, 10000⟩], none)
    | none => ([], none)

/-- How many POSTs of a run went to a given destination. -/
def countDest (as : List Attempt) (d : Dest) : Nat :=
  (as.filter (fun a => a.dest == d)).length

/-- C5: a failing link-event POST (connection refused, non-2xx, timeout —
axios rejects in all three cases) is absorbed inside `dispatchLink`: nothing
is thrown to the message-intake pipeline in either bot variant, each
destination is attempted at most once (no retry), and the intake pipeline
leaves `status` and `connected` unchanged and throws nothing for any
message. -/
theorem c5_dispatch_failure_contained (wu cu : Option String) (wf cf : Bool)
    (h : wf = true ∨ cf = true) :
    (dispatchLink wu cu wf cf).2 = none
    ∧ countDest (dispatchLink wu cu wf cf).1 .webhook ≤ 1
    ∧ countDest (dispatchLink wu cu wf cf).1 .callback ≤ 1
    ∧ (dispatchLinkBrowser wu cu wf cf).2 = none
    ∧ (∀ (s : Bot) (m : Msg2),
        (handleMessage s m).state.status = s.status
        ∧ (handleMessage s m).state.connected = s.connected
        ∧ (handleMessage s m).thrown = none) := by
  refine ⟨?_, ?_, ?_, ?_, ?_⟩
  · cases wu <;> cases cu <;> cases wf <;>
      simp [dispatchLink]
  · cases wu <;> cases cu <;> cases wf <;>
      simp [dispatchLink, countDest]
  · cases wu <;> cases cu <;> cases wf <;>
      simp [dispatchLink, countDest]
  · cases wu <;> cases cu <;> cases wf <;>
      simp [dispatchLinkBrowser]
  · intro s m
    have hp := handleMessage_preserves s m
    exact ⟨hp.1, hp.2.1, hp.2.2.2.2⟩

theorem c5_witness :
    (true = true ∨ false = true)
    ∧ ((dispatchLink (some "https://hook.example") none true false).2 = none
       ∧ countDest (dispatchLink (some "https://hook.example") none true false).1 .webhook ≤ 1
       ∧ countDest (dispatchLink (some "https://hook.example") none true false).1 .callback ≤ 1
       ∧ (dispatchLinkBrowser (some "https://hook.example") none true false).2 = none
       ∧ (∀ (s : Bot) (m : Msg2),
           (handleMessage s m).state.status = s.status
           ∧ (handleMessage s m).state.connected = s.connected
           ∧ (handleMessage s m).thrown = none)) :=
  ⟨Or.inl rfl,
    c5_dispatch_failure_contained (some "https://hook.example") none true false (Or.inl rfl)⟩

/-! ### C6: which dispatches are fire-and-forget -/

/-- The network work of one dispatcher call, split into POSTs awaited before
the call returns to its caller (`sync`) and POSTs scheduled past the return
(`deferred`, i.e. inside a `setImmediate` callback). -/
structure DispatchEffects where
  sync : List Attempt
  deferred : List Attempt
deriving DecidableEq, Repr

/-- Embedding of `notifyStatusChange` (event-driven variant, lines 683-712):
when `callbackUrl` is configured, the status POST (timeout 5000) is wrapped
in `setImmediate`, so the call returns before any network I/O starts. -/
def notifyStatusChange (callbackUrl : Option String) : DispatchEffects :=
  match callbackUrl with
  | some _ => ⟨[], [⟨.callback, 5000⟩]⟩
  | none => ⟨[], []⟩

/-- Embedding of `notifyQRCode` (lines 714-743): as `notifyStatusChange`,
guarded additionally on a present encoded challenge. -/
def notifyQRCode (callbackUrl : Option String) (qrCodeDataURL : Option (List Char)) :
    DispatchEffects :=
  match callbackUrl, qrCodeDataURL with
  | some _, some _ => ⟨[], [⟨.callback, 5000⟩]⟩
  | _, _ => ⟨[], []⟩

/-- The same split for `dispatchLink`: its POSTs are awaited inline by the
intake pipeline; nothing is deferred. -/
def linkDispatchEffects (wu cu : Option String) (wf cf : Bool) : DispatchEffects :=
  ⟨(dispatchLink wu cu wf cf).1, []⟩

/-- C6 counterexample: with a configured webhook, the link_detected dispatch
performs a POST before returning to `handleMessage` — `dispatchLink` awaits
its axios calls, unlike the `setImmediate`-wrapped status and QR
notifications — so not every dispatcher call returns before its network I/O
completes. -/
theorem c6_counterexample :
    (linkDispatchEffects (some "https://hook.example") none false false).sync ≠ [] := by
  decide

/-- C6 (amended): the status_change and qr_code dispatches are
fire-and-forget — scheduled via `setImmediate`, no network I/O before the
call returns — but the link_detected dispatch is awaited by `handleMessage`
on the triggering event's critical path: all its POSTs happen before it
returns and none is deferred. -/
theorem c6_amended_dispatch_split (wu cu : Option String) (qr : Option (List Char))
    (wf cf : Bool) :
    (notifyStatusChange cu).sync = []
    ∧ (notifyQRCode cu qr).sync = []
    ∧ (linkDispatchEffects wu cu wf cf).deferred = []
    ∧ (wu.isSome = true → (linkDispatchEffects wu cu wf cf).sync ≠ []) := by
  cases cu <;> cases wu <;> cases qr <;> cases wf <;>
    simp [notifyStatusChange, notifyQRCode, linkDispatchEffects, dispatchLink]

theorem c6_witness :
    ((some "https://hook.example" : Option String)).isSome = true
    ∧ (linkDispatchEffects (some "https://hook.example") (some "https://cb.example")
        false false).sync ≠ [] :=
  ⟨rfl, (c6_amended_dispatch_split (some "https://hook.example")
    (some "https://cb.example") none false false).2.2.2 rfl⟩

/-! ### The browser-automation variant: state, disconnect, connection wait -/

/-- Mutable fields of the browser-automation `WhatsAppBot` (first half of
src/whatsapp-bot-enhanced.js): `this.status`, `this.connected`,
`this.qrCode` (base64 data URL built from the QR screenshot), whether
`this.messageCheckInterval` is installed, and whether the QR screenshot file
exists on disk. -/
structure BrowserBot where
  status : Status
  connected : Bool
  qrCode : Option (List Char)
  intervalActive : Bool
  qrFileExists : Bool
deriving DecidableEq, Repr

/-- Embedding of the browser variant's `disconnect()` (lines 400-424): sets
`connected = false` and `status = 'disconnected'`, clears the interval,
closes page and browser (rejections swallowed by `.catch(() => {})`),
deletes the QR file when it exists, fires the deferred status notification.
`this.qrCode` is never assigned, so a stored challenge survives. -/
def disconnectBrowser (b : BrowserBot) : BrowserBot :=
  { b with connected := false, status := .disconnected,
           intervalActive := false, qrFileExists := false }

/-- C9 counterexample: in the browser-automation variant, disconnecting (and
disconnecting again) a session that was in `qr_ready` leaves
`status = disconnected` and `connected = false` but the stored challenge
still present — the claimed observable state "no stored challenge" does not
hold after `disconnect`. -/
theorem c9_counterexample :
    (disconnectBrowser (disconnectBrowser
        ⟨.qr_ready, false, some ['q'], true, true⟩)).status = .disconnected
    ∧ (disconnectBrowser (disconnectBrowser
        ⟨.qr_ready, false, some ['q'], true, true⟩)).connected = false
    ∧ (disconnectBrowser (disconnectBrowser
        ⟨.qr_ready, false, some ['q'], true, true⟩)).qrCode.isSome = true := by
  exact ⟨by decide, by decide, by decide⟩

/-- C9 (amended): `disconnect` is idempotent in both variants — a second
invocation on an already-disconnected session throws nothing to the caller
and leaves the observable state exactly as after the first, with
`status = disconnected` and `connected = false`; the event-driven variant's
disconnect also leaves no stored challenge, but the browser-automation
variant's disconnect does not clear the stored challenge. -/
theorem c9_amended_disconnect_idempotent (b : Bot) (ok2 : Bool) (b1 : BrowserBot) :
    (disconnect (disconnect b true).1 ok2).1 = (disconnect b true).1
    ∧ (disconnect (disconnect b true).1 ok2).2 = none
    ∧ (disconnect b true).1.status = .disconnected
    ∧ (disconnect b true).1.connected = false
    ∧ (disconnect b true).1.qrCodeDataURL = none
    ∧ disconnectBrowser (disconnectBrowser b1) = disconnectBrowser b1
    ∧ (disconnectBrowser b1).status = .disconnected
    ∧ (disconnectBrowser b1).connected = false := by
  cases ok2 <;> simp [disconnect, disconnectBrowser]

/-! ### C7: the connection timeout -/

/-- The connection timeout of `waitForConnection` (line 155): 300000 ms. -/
def connectTimeoutMs : Nat := 300000

/-- What one iteration of the `waitForConnection` polling loop observes on
the page: a QR element (`[data-ref]`), whether the screenshot of it
succeeds, and the logged-in chat list (`[data-testid="chat-list"]`). -/
structure PollObs where
  qrPresent : Bool
  screenshotOk : Bool
  chatListPresent : Bool
deriving DecidableEq, Repr

/-- Result of `waitForConnection`: the bot state, the elapsed time at exit,
and whether the loop fell through to the timeout `throw`. -/
structure WaitOutcome where
  bot : BrowserBot
  elapsedMs : Nat
  timedOut : Bool
deriving DecidableEq, Repr

/-- Placeholder for the base64 screenshot captured at the i-th poll; only
its presence matters. -/
def qrShot (i : Nat) : List Char := List.replicate (i + 1) 'q'

/-- Embedding of the polling loop of `waitForConnection` (lines 158-204):
while elapsed < timeout: when a QR element is present, set `qr_ready` and
(when the screenshot succeeds) store the encoded QR and the file; when the
chat list is present, save the session, clear the QR code and return; else
wait (the explicit `waitForTimeout(2000)`) and poll again.  `obs i` is what
the i-th poll observes, `dur i` how long the i-th iteration takes (at least
the explicit 2000 ms wait).  The `fuel` argument only bounds the recursion;
with 150 = timeout/2000 it cannot run out before the timeout check fires
when every iteration takes at least 2000 ms. -/
def waitLoop (obs : Nat → PollObs) (dur : Nat → Nat) :
    BrowserBot → Nat → Nat → Nat → WaitOutcome
  | b, _, elapsed, 0 => ⟨b, elapsed, true⟩
  | b, i, elapsed, fuel + 1 =>
    if elapsed < connectTimeoutMs then
      let o := obs i
      let b1 := if o.qrPresent then
          { b with status := .qr_ready,
                   qrCode := if o.screenshotOk then some (qrShot i) else b.qrCode,
                   qrFileExists := o.screenshotOk || b.qrFileExists }
        else b
      if o.chatListPresent then ⟨{ b1 with qrCode := none }, elapsed, false⟩
      else waitLoop obs dur b1 (i + 1) (elapsed + dur i) fuel
    else ⟨b, elapsed, true⟩

/-- Embedding of `waitForConnection` (lines 149-207): set status
'connecting', then run the polling loop. -/
def waitForConnection (obs : Nat → PollObs) (dur : Nat → Nat) (b : BrowserBot) :
    WaitOutcome :=
  waitLoop obs dur { b with status := .connecting } 0 0 150

/-- Embedding of the browser variant's `initialize()` (lines 21-98) at the
granularity of `waitForConnection`: on success, `connected = true`, status
'connected', monitoring starts; when `waitForConnection` throws its timeout
error, the catch sets status 'error' and rethrows, so the start operation
fails. -/
def initializeBrowser (obs : Nat → PollObs) (dur : Nat → Nat) : BrowserBot × Bool :=
  let w := waitForConnection obs dur
    ⟨.initializing, false, none, false, false⟩
  if w.timedOut then ({ w.bot with status := .error }, false)
  else ({ w.bot with status := .connected, connected := true, intervalActive := true }, true)

/-- The `/start` handler's response: the catch branch answers
`res.status(500).json({success:false,...})` when `bot.initialize()` rejects,
and 200 `success:true` otherwise (server.js lines 85-158). -/
structure StartResponse where
  success : Bool
  httpStatus : Nat
deriving DecidableEq, Repr

/-- The HTTP result of `/start` as a function of the connection attempt. -/
def startResponse (obs : Nat → PollObs) (dur : Nat → Nat) : StartResponse :=
  if (initializeBrowser obs dur).2 then ⟨true, 200⟩ else ⟨false, 500⟩

theorem waitLoop_timeout (obs : Nat → PollObs) (dur : Nat → Nat)
    (hnc : ∀ i, (obs i).chatListPresent = false)
    (hdur : ∀ i, 2000 ≤ dur i) :
    ∀ (fuel i elapsed : Nat) (b : BrowserBot),
      connectTimeoutMs ≤ elapsed + 2000 * fuel →
      (waitLoop obs dur b i elapsed fuel).timedOut = true
      ∧ connectTimeoutMs ≤ (waitLoop obs dur b i elapsed fuel).elapsedMs := by
  intro fuel
  induction fuel with
  | zero =>
    intro i elapsed b hb
    exact ⟨rfl, by simpa using hb⟩
  | succ n ih =>
    intro i elapsed b hb
    by_cases he : elapsed < connectTimeoutMs
    · have hs := hnc i
      simp only [waitLoop, if_pos he, hs, Bool.false_eq_true, if_false]
      apply ih
      have := hdur i
      omega
    · simp only [waitLoop, if_neg he]
      exact ⟨by trivial, by omega⟩

/-- C7: when authentication never completes — no poll ever observes the
logged-in chat list — and every poll iteration takes at least its built-in
2000 ms wait, the loop exits through the timeout branch with at least
300000 ms elapsed, `initialize` sets status `error` and rejects, and the
`/start` operation reports failure (HTTP 500, success false) to the control
plane. -/
theorem c7_timeout_errors_start (obs : Nat → PollObs) (dur : Nat → Nat)
    (hnc : ∀ i, (obs i).chatListPresent = false)
    (hdur : ∀ i, 2000 ≤ dur i) :
    (initializeBrowser obs dur).1.status = .error
    ∧ (initializeBrowser obs dur).2 = false
    ∧ startResponse obs dur = ⟨false, 500⟩
    ∧ connectTimeoutMs ≤
        (waitForConnection obs dur ⟨.initializing, false, none, false, false⟩).elapsedMs := by
  have hw := waitLoop_timeout obs dur hnc hdur 150 0 0
      { status := .connecting, connected := false, qrCode := none,
        intervalActive := false, qrFileExists := false }
      (by simp [connectTimeoutMs])
  have ht : (waitForConnection obs dur ⟨.initializing, false, none, false, false⟩).timedOut
      = true := hw.1
  refine ⟨?_, ?_, ?_, hw.2⟩
  · simp only [initializeBrowser, ht, if_true]
  · simp only [initializeBrowser, ht, if_true]
  · simp only [startResponse, initializeBrowser, ht, if_true]
    rfl

/-- C7 witness data: a page that never reaches the chat list. -/
def c7Obs : Nat → PollObs := fun _ => ⟨false, false, false⟩

/-- C7 witness data: every iteration takes exactly the built-in wait. -/
def c7Dur : Nat → Nat := fun _ => 2000

theorem c7_witness :
    (∀ i, (c7Obs i).chatListPresent = false)
    ∧ (∀ i, 2000 ≤ c7Dur i)
    ∧ ((initializeBrowser c7Obs c7Dur).1.status = .error
       ∧ (initializeBrowser c7Obs c7Dur).2 = false
       ∧ startResponse c7Obs c7Dur = ⟨false, 500⟩
       ∧ connectTimeoutMs ≤
           (waitForConnection c7Obs c7Dur ⟨.initializing, false, none, false, false⟩).elapsedMs) :=
  ⟨fun _ => rfl, fun _ => Nat.le_refl _,
    c7_timeout_errors_start c7Obs c7Dur (fun _ => rfl) (fun _ => Nat.le_refl _)⟩

/-! ### Session registry (src/server.js)

`const whatsappBots = new Map()` keyed by userId.  The association list
below models the Map: `regSet` replaces in place (`Map.set`), `regErase`
removes the key (`Map.delete`), `regLookup` is `Map.get`. -/

/-- `Map.get`. -/
def regLookup {α : Type} : List (String × α) → String → Option α
  | [], _ => none
  | (k, v) :: rest, u => if k = u then some v else regLookup rest u

/-- `Map.delete`. -/
def regErase {α : Type} : List (String × α) → String → List (String × α)
  | [], _ => []
  | (k, v) :: rest, u => if k = u then rest else (k, v) :: regErase rest u

/-- `Map.set`: replaces the entry in place when the key exists, else
appends. -/
def regSet {α : Type} : List (String × α) → String → α → List (String × α)
  | [], u, v => [(u, v)]
  | (k, w) :: rest, u, v =>
    if k = u then (u, v) :: rest else (k, w) :: regSet rest u v

/-- The keys of the registry. -/
def regKeys {α : Type} (r : List (String × α)) : List String := r.map Prod.fst

theorem regLookup_set_self {α : Type} : ∀ (r : List (String × α)) (u : String) (v : α),
    regLookup (regSet r u v) u = some v := by
  intro r
  induction r with
  | nil => intro u v; simp [regSet, regLookup]
  | cons p rest ih =>
    intro u v
    obtain ⟨k, w⟩ := p
    by_cases hk : k = u
    · simp [regSet, hk, regLookup]
    · simp [regSet, hk, regLookup, ih]

theorem mem_regKeys_of_mem_erase {α : Type} : ∀ (r : List (String × α)) (u : String)
    (x : String), x ∈ regKeys (regErase r u) → x ∈ regKeys r := by
  intro r
  induction r with
  | nil => intro u x hx; simp [regErase, regKeys] at hx
  | cons p rest ih =>
    intro u x hx
    obtain ⟨k, w⟩ := p
    by_cases hk : k = u
    · subst hk
      have he : regErase ((k, w) :: rest) k = rest := by simp [regErase]
      rw [he] at hx
      simp only [regKeys, List.map_cons, List.mem_cons]
      exact Or.inr hx
    · have he : regErase ((k, w) :: rest) u = (k, w) :: regErase rest u := by
        simp [regErase, hk]
      rw [he] at hx
      simp only [regKeys, List.map_cons, List.mem_cons] at hx ⊢
      rcases hx with h | h
      · exact Or.inl h
      · exact Or.inr (ih u x h)

theorem not_mem_regKeys_erase {α : Type} : ∀ (r : List (String × α)) (u : String),
    (regKeys r).Nodup → u ∉ regKeys (regErase r u) := by
  intro r
  induction r with
  | nil => intro u _; simp [regErase, regKeys]
  | cons p rest ih =>
    intro u hnd
    obtain ⟨k, w⟩ := p
    simp only [regKeys, List.map_cons, List.nodup_cons] at hnd
    by_cases hk : k = u
    · subst hk
      have he : regErase ((k, w) :: rest) k = rest := by simp [regErase]
      rw [he]
      exact hnd.1
    · have he : regErase ((k, w) :: rest) u = (k, w) :: regErase rest u := by
        simp [regErase, hk]
      rw [he]
      simp only [regKeys, List.map_cons, List.mem_cons]
      rintro (h | h)
      · exact hk h.symm
      · exact ih u hnd.2 h

theorem nodup_regKeys_erase {α : Type} : ∀ (r : List (String × α)) (u : String),
    (regKeys r).Nodup → (regKeys (regErase r u)).Nodup := by
  intro r
  induction r with
  | nil => intro u _; simp [regErase, regKeys]
  | cons p rest ih =>
    intro u hnd
    obtain ⟨k, w⟩ := p
    simp only [regKeys, List.map_cons, List.nodup_cons] at hnd
    by_cases hk : k = u
    · subst hk
      have he : regErase ((k, w) :: rest) k = rest := by simp [regErase]
      rw [he]
      exact hnd.2
    · have he : regErase ((k, w) :: rest) u = (k, w) :: regErase rest u := by
        simp [regErase, hk]
      rw [he]
      simp only [regKeys, List.map_cons, List.nodup_cons]
      refine ⟨?_, ih u hnd.2⟩
      intro hmem
      exact hnd.1 (mem_regKeys_of_mem_erase rest u k hmem)

theorem regKeys_set_not_mem {α : Type} : ∀ (r : List (String × α)) (u : String) (v : α),
    u ∉ regKeys r → regKeys (regSet r u v) = regKeys r ++ [u] := by
  intro r
  induction r with
  | nil => intro u v _; simp [regSet, regKeys]
  | cons p rest ih =>
    intro u v hmem
    obtain ⟨k, w⟩ := p
    simp only [regKeys, List.map_cons, List.mem_cons] at hmem
    push_neg at hmem
    have hk : ¬ (k = u) := fun h => hmem.1 h.symm
    have he : regSet ((k, w) :: rest) u v = (k, w) :: regSet rest u v := by
      simp [regSet, hk]
    rw [he]
    show regKeys ((k, w) :: regSet rest u v) = regKeys ((k, w) :: rest) ++ [u]
    simp only [regKeys, List.map_cons, List.cons_append]
    exact congrArg (fun t => k :: t) (ih u v hmem.2)

theorem nodup_append_singleton : ∀ (l : List String) (u : String),
    l.Nodup → u ∉ l → (l ++ [u]).Nodup := by
  intro l
  induction l with
  | nil => intro u _ _; simp
  | cons x xs ih =>
    intro u hnd hmem
    simp only [List.nodup_cons] at hnd
    simp only [List.mem_cons] at hmem
    push_neg at hmem
    simp only [List.cons_append, List.nodup_cons]
    refine ⟨?_, ih u hnd.2 hmem.2⟩
    simp only [List.mem_append, List.mem_singleton]
    rintro (h | h)
    · exact hnd.1 h
    · exact hmem.1 h.symm

theorem regLookup_eq_none_of_not_mem {α : Type} : ∀ (r : List (String × α)) (u : String),
    u ∉ regKeys r → regLookup r u = none := by
  intro r
  induction r with
  | nil => intro u _; rfl
  | cons p rest ih =>
    intro u hmem
    obtain ⟨k, w⟩ := p
    simp only [regKeys, List.map_cons, List.mem_cons] at hmem
    push_neg at hmem
    have hk : ¬ (k = u) := fun h => hmem.1 h.symm
    simp [regLookup, hk, ih u hmem.2]

/-- The observable actions of the `/start` handler, in program order.
`timeoutRemove` is the 30-second initialization timer's callback deleting
the just-stored entry while `initialize()` is still pending. -/
inductive StartStep
  | disconnectExisting (sid : Nat)
  | removeExisting
  | constructBot (sid : Nat)
  | storeBot (sid : Nat)
  | initializeBot (sid : Nat)
  | timeoutRemove
  | removeFailed
deriving DecidableEq, Repr

/-- Embedding of the `/start` handler's session management (server.js lines
101-142): when the registry already holds a bot for the user, await its
`disconnect()` (errors logged, ignored) and delete it; construct the new
bot and `Map.set` it; install the 30-second initialization timer (lines
120-123), whose callback runs `whatsappBots.delete(userId)` when
`bot.initialize()` is still pending after 30 s — the `clearTimeout` issued
after a later settlement cannot undo a deletion that already happened;
await `initialize()`; when it rejects, delete the entry (a no-op when the
timer already removed it) and answer 500.  `initOk` says whether
`initialize()` settles successfully, `withinTimeout` whether it settles
before the timer fires.  Sessions are identified by an opaque token
(`fresh` for the newly constructed one); the returned list is the sequence
of actions performed, the registry is the final map. -/
def startHandler (reg : List (String × Nat)) (u : String) (fresh : Nat)
    (initOk withinTimeout : Bool) : List StartStep × List (String × Nat) :=
  let pre : List StartStep × List (String × Nat) :=
    match regLookup reg u with
    | some old => ([.disconnectExisting old, .removeExisting], regErase reg u)
    | none => ([], reg)
  let reg1 := regSet pre.2 u fresh
  let reg2 := if withinTimeout then reg1 else regErase reg1 u
  let mid : List StartStep := if withinTimeout then [] else [.timeoutRemove]
  if initOk then
    (pre.1 ++ [.constructBot fresh, .storeBot fresh, .initializeBot fresh] ++ mid, reg2)
  else
    (pre.1 ++ [.constructBot fresh, .storeBot fresh, .initializeBot fresh] ++ mid
       ++ [.removeFailed],
     regErase reg2 u)

/-- C4 counterexample: a start for `u1` (which already holds session 1)
whose `initialize()` succeeds but settles only after the 30-second
initialization timer has fired — routine for the browser variant, whose
`waitForConnection` waits up to five minutes for a QR scan.  The timer's
callback has already deleted the new entry, so afterwards the Registry
maps `u1` to no session at all, not to exactly the new one. -/
theorem c4_counterexample :
    regLookup (startHandler [("u1", 1)] "u1" 2 true false).2 "u1" = none
    ∧ regLookup (startHandler [("u1", 1)] "u1" 2 true false).2 "u1" ≠ some 2
    ∧ StartStep.timeoutRemove ∈ (startHandler [("u1", 1)] "u1" 2 true false).1 := by
  exact ⟨by decide, by decide, by decide⟩

/-- C4 (amended): starting for a tenant that already has a session first
disconnects the existing session — the disconnect action strictly precedes
the construction of the new bot in the handler's action sequence — and at
every instant the Registry holds at most one session for the tenant (the
key set stays duplicate-free, never two).  When `initialize()` settles
successfully before the 30-second initialization timer fires, the Registry
afterwards maps the tenant to exactly the new session; when `initialize()`
rejects, or is still pending when the timer fires, the entry is deleted,
leaving no session for the tenant. -/
theorem c4_amended_start_at_most_one (reg : List (String × Nat)) (u : String)
    (fresh old : Nat) (initOk withinTimeout : Bool)
    (hold : regLookup reg u = some old)
    (hnd : (regKeys reg).Nodup) :
    (∃ i j : Nat, i < j
        ∧ (startHandler reg u fresh initOk withinTimeout).1.get? i
            = some (StartStep.disconnectExisting old)
        ∧ (startHandler reg u fresh initOk withinTimeout).1.get? j
            = some (StartStep.constructBot fresh))
    ∧ regLookup (startHandler reg u fresh initOk withinTimeout).2 u
        = (if initOk && withinTimeout then some fresh else none)
    ∧ (regKeys (startHandler reg u fresh initOk withinTimeout).2).Nodup := by
  have h1 : (regKeys (regErase reg u)).Nodup := nodup_regKeys_erase reg u hnd
  have h2 : u ∉ regKeys (regErase reg u) := not_mem_regKeys_erase reg u hnd
  have hnd1 : (regKeys (regSet (regErase reg u) u fresh)).Nodup := by
    rw [regKeys_set_not_mem _ u fresh h2]
    exact nodup_append_singleton _ u h1 h2
  have hnd2 : (regKeys (regErase (regSet (regErase reg u) u fresh) u)).Nodup :=
    nodup_regKeys_erase _ u hnd1
  have hnone1 : regLookup (regErase (regSet (regErase reg u) u fresh) u) u = none :=
    regLookup_eq_none_of_not_mem _ u (not_mem_regKeys_erase _ u hnd1)
  have hnone2 :
      regLookup (regErase (regErase (regSet (regErase reg u) u fresh) u) u) u = none :=
    regLookup_eq_none_of_not_mem _ u (not_mem_regKeys_erase _ u hnd2)
  cases initOk <;> cases withinTimeout
  · have hsh : (startHandler reg u fresh false false).2
        = regErase (regErase (regSet (regErase reg u) u fresh) u) u := by
      simp [startHandler, hold]
    refine ⟨⟨0, 2, by omega, by simp [startHandler, hold],
      by simp [startHandler, hold]⟩, ?_, ?_⟩
    · rw [hsh]
      simpa using hnone2
    · rw [hsh]
      exact nodup_regKeys_erase _ u hnd2
  · have hsh : (startHandler reg u fresh false true).2
        = regErase (regSet (regErase reg u) u fresh) u := by
      simp [startHandler, hold]
    refine ⟨⟨0, 2, by omega, by simp [startHandler, hold],
      by simp [startHandler, hold]⟩, ?_, ?_⟩
    · rw [hsh]
      simpa using hnone1
    · rw [hsh]
      exact hnd2
  · have hsh : (startHandler reg u fresh true false).2
        = regErase (regSet (regErase reg u) u fresh) u := by
      simp [startHandler, hold]
    refine ⟨⟨0, 2, by omega, by simp [startHandler, hold],
      by simp [startHandler, hold]⟩, ?_, ?_⟩
    · rw [hsh]
      simpa using hnone1
    · rw [hsh]
      exact hnd2
  · have hsh : (startHandler reg u fresh true true).2
        = regSet (regErase reg u) u fresh := by
      simp [startHandler, hold]
    refine ⟨⟨0, 2, by omega, by simp [startHandler, hold],
      by simp [startHandler, hold]⟩, ?_, ?_⟩
    · rw [hsh]
      simpa using regLookup_set_self (regErase reg u) u fresh
    · rw [hsh]
      exact hnd1

theorem c4_witness :
    regLookup [("u1", 1)] "u1" = some 1
    ∧ (regKeys [("u1", (1 : Nat))]).Nodup
    ∧ ((∃ i j : Nat, i < j
          ∧ (startHandler [("u1", 1)] "u1" 2 true true).1.get? i
              = some (StartStep.disconnectExisting 1)
          ∧ (startHandler [("u1", 1)] "u1" 2 true true).1.get? j
              = some (StartStep.constructBot 2))
       ∧ regLookup (startHandler [("u1", 1)] "u1" 2 true true).2 "u1"
           = (if true && true then some 2 else none)
       ∧ (regKeys (startHandler [("u1", 1)] "u1" 2 true true).2).Nodup) :=
  ⟨by decide, by decide,
    c4_amended_start_at_most_one [("u1", 1)] "u1" 2 1 true true (by decide) (by decide)⟩

/-! ### C8: shutdownAll -/

/-- `Promise.all` over teardown promises, each modelled by its completion
time (`none` = never settles): the aggregate settles exactly when every
promise settles, at the latest completion time. -/
def promiseAll (ts : List (Option Nat)) : Option Nat :=
  ts.foldr
    (fun t acc =>
      match t, acc with
      | some a, some b => some (Nat.max a b)
      | _, _ => none)
    (some 0)

/-- Embedding of the SIGTERM handler (server.js lines 279-286):
`Promise.all(Array.from(whatsappBots.values()).map(bot => bot.disconnect()))`
— every session's teardown is started concurrently and the handler awaits
them all, with no per-session bound.  `teardownTime sid` is the completion
time of session `sid`'s `disconnect()` (`none` when it hangs forever). -/
def shutdownAll (teardownTime : Nat → Option Nat)
    (reg : List (String × Nat)) : Option Nat :=
  promiseAll (reg.map (fun p => teardownTime p.2))

theorem promiseAll_isSome : ∀ ts : List (Option Nat),
    (promiseAll ts).isSome = ts.all Option.isSome := by
  intro ts
  induction ts with
  | nil => rfl
  | cons t ts ih =>
    simp only [promiseAll, List.foldr_cons, List.all_cons]
    cases t with
    | none => simp
    | some a =>
      cases hacc : ts.foldr
          (fun t acc =>
            match t, acc with
            | some a, some b => some (Nat.max a b)
            | _, _ => none)
          (some 0) with
      | none =>
        simp only [Option.isSome_some, Bool.true_and]
        rw [← ih]
        simp [promiseAll, hacc]
      | some b =>
        simp only [Option.isSome_some, Bool.true_and]
        rw [← ih]
        simp [promiseAll, hacc]

/-- C8 witness data: session 2's teardown hangs forever, session 1's
completes at time 1. -/
def hangTeardown : Nat → Option Nat := fun sid => if sid = 2 then none else some 1

/-- C8 counterexample: a registry of N = 2 sessions where one teardown hangs
longer than any bound (never settles).  `shutdownAll` — a bare
`Promise.all` with no per-session timeout — never completes, contradicting
the claimed bounded wait; the other session's teardown does complete on its
own. -/
theorem c8_counterexample :
    (shutdownAll hangTeardown [("u1", 1), ("u2", 2)]).isSome = false
    ∧ (hangTeardown 1).isSome = true := by
  exact ⟨by decide, by decide⟩

/-- C8 (amended): `shutdownAll` tears every session down concurrently and
awaits them all with a plain `Promise.all` and no per-session bound: it
completes exactly when every session's teardown completes (each session's
own teardown completing independently of the others); a single hung
teardown keeps the shutdown handler pending forever. -/
theorem c8_amended_shutdown_unbounded (teardownTime : Nat → Option Nat)
    (reg : List (String × Nat)) :
    (shutdownAll teardownTime reg).isSome
      = (reg.map (fun p => teardownTime p.2)).all Option.isSome :=
  promiseAll_isSome _

/-! ### C10: status query for an unknown tenant -/

/-- What the status route reads off a bot: `bot.isConnected()`,
`bot.getStatus()`, `bot.hasQRCode()`. -/
structure BotView where
  isConn : Bool
  botStatus : Status
  hasQR : Bool
deriving DecidableEq, Repr

/-- The JSON body of `GET /status/:userId` (server.js lines 57-67). -/
structure StatusResponse where
  bot_connected : Bool
  statusField : Status
  qr_available : Bool
deriving DecidableEq, Repr

/-- Embedding of the `/status/:userId` handler: `whatsappBots.get(userId)`
then `bot?.isConnected() || false`, `bot?.getStatus() || 'disconnected'`,
`bot?.hasQRCode() || false`; the registry is only read.  Returns the
response and the registry afterwards. -/
def statusHandler (reg : List (String × BotView)) (uid : String) :
    StatusResponse × List (String × BotView) :=
  match regLookup reg uid with
  | some b => (⟨b.isConn, b.botStatus, b.hasQR⟩, reg)
  | none => (⟨false, .disconnected, false⟩, reg)

/-- C10: querying status for a tenant with no registered session does not
fail: the handler answers `bot_connected = false`, status `disconnected`,
`qr_available = false`, and the registry is unchanged. -/
theorem c10_status_unknown_tenant (reg : List (String × BotView)) (uid : String)
    (h : regLookup reg uid = none) :
    statusHandler reg uid = (⟨false, .disconnected, false⟩, reg) := by
  simp [statusHandler, h]

theorem c10_witness :
    regLookup ([] : List (String × BotView)) "ghost" = none
    ∧ statusHandler ([] : List (String × BotView)) "ghost"
        = (⟨false, .disconnected, false⟩, []) :=
  ⟨rfl, c10_status_unknown_tenant [] "ghost" rfl⟩

end WhatsAppService
